import Mathlib

/-!
Shallow embedding of the `howto` documentation-retrieval tool, covering the
components the specification's claims are about: the frontmatter parser
(`internal/parser/parser.go`), the project configuration
(`internal/config/config.go`), the registry builder and view
(`internal/registry/registry.go`), the document loader
(`internal/loader/loader.go`) and the cached registry loader
(`internal/app/registry_loader.go`).

Modelling conventions:
- Go byte slices of file content are `List Char` (all relevant inputs are
  ASCII); Go strings are Lean `String`.
- Go maps (`Registry`) are association lists with unique keys maintained by
  a replacing insert; lookup/size/keys then agree with Go map semantics.
- Filesystem effects are made explicit: a directory is a `DirState` value
  describing what `os.Stat` and `filepath.WalkDir` would observe, and the
  YAML library (`gopkg.in/yaml.v3`, an external dependency) is passed in as
  an uninterpreted decoding function where it matters.
- `sha256` hashing in the cache signature is abstracted by the exact byte
  stream the Go code feeds to the hasher (injective up to hash collisions,
  which is the code's own working assumption).
-/

namespace Howto

/-! ## Parser data model (`internal/parser/parser.go`) -/

/-- `parser.Source`: where a document came from. -/
inductive Source where
  | global
  | projectScoped
deriving DecidableEq

/-- `parser.Document`: a parsed markdown file with YAML frontmatter. -/
structure Document where
  Name : String
  Description : String
  Required : Bool
  Content : String
  Source : Source
  FilePath : String
deriving DecidableEq

/-- `parser.frontmatter`: the YAML metadata structure.  `Required` is a
pointer in Go to distinguish unset (`none`) from `false`. -/
structure Frontmatter where
  Name : String
  Description : String
  Required : Option Bool
deriving DecidableEq

/-- `bytes.HasPrefix`: whether `s` begins with `pat`. -/
def leadsWith : List Char → List Char → Bool
  | _, [] => true
  | [], _ :: _ => false
  | c :: cs, p :: ps => c == p && leadsWith cs ps

/-- `bytes.HasSuffix`: whether `s` ends with `pat`. -/
def trailsWith (s pat : List Char) : Bool :=
  leadsWith s.reverse pat.reverse

/-- `bytes.Index`: index of the first occurrence of `pat` in `s`
(`none` models Go's `-1`). -/
def indexOfSub : List Char → List Char → Option Nat
  | [], pat => if pat.isEmpty then some 0 else none
  | c :: rest, pat =>
    if leadsWith (c :: rest) pat then some 0
    else (indexOfSub rest pat).map (· + 1)

/-- The ASCII cases of `unicode.IsSpace`, as used by `bytes.TrimSpace`.
Documents in this repository are ASCII where it matters. -/
def isSpaceGo (c : Char) : Bool :=
  c = ' ' || c = '\t' || c = '\n' || c = '\x0b' || c = '\x0c' || c = '\r'

/-- `bytes.TrimSpace`: strip leading and trailing whitespace. -/
def trimSpaceL (l : List Char) : List Char :=
  ((l.dropWhile isSpaceGo).reverse.dropWhile isSpaceGo).reverse

/-- `strings.ToLower` (ASCII range). -/
def toLowerGo (s : String) : String :=
  String.mk (s.data.map Char.toLower)

/-- `strings.TrimSuffix s suffixStr`: remove the suffix if present
(byte-for-byte, hence case-sensitive). -/
def goTrimSuffix (s suffixStr : String) : String :=
  if trailsWith s.data suffixStr.data then
    String.mk (s.data.take (s.data.length - suffixStr.data.length))
  else s

/-- `parser.extractFrontmatter`: separate the YAML frontmatter from the
markdown body.  Returns `(frontmatter bytes, body bytes)`.

The Go function finds the closing delimiter, then advances a `bodyStartIndex`
cursor past every `'\n'`, `'\r'` and `'-'` character before trimming; the
index loop is rendered here as `dropWhile` on the corresponding suffix of
`content` (when the cursor reaches the end the body is empty, matching the
Go `nil` body). -/
def extractFrontmatter (content : List Char) :
    Except String (List Char × List Char) :=
  if !leadsWith content ['-', '-', '-', '\n']
      && !leadsWith content ['-', '-', '-', '\r', '\n'] then
    .error "missing frontmatter delimiter at start"
  else
    let start := if leadsWith content ['-', '-', '-', '\r', '\n'] then 5 else 4
    let remaining := content.drop start
    let endDelim :=
      match indexOfSub remaining ['\n', '-', '-', '-', '\n'] with
      | some i => some i
      | none =>
        match indexOfSub remaining ['\r', '\n', '-', '-', '-', '\r', '\n'] with
        | some i => some i
        | none =>
          match indexOfSub remaining ['\n', '-', '-', '-', '\r', '\n'] with
          | some i => some i
          | none =>
            if trailsWith remaining ['\n', '-', '-', '-'] then
              some (remaining.length - 4)
            else if trailsWith remaining ['\r', '\n', '-', '-', '-'] then
              some (remaining.length - 5)
            else none
    match endDelim with
    | none => .error "missing closing frontmatter delimiter"
    | some endDelimIndex =>
      let fm := remaining.take endDelimIndex
      let bodyStart := content.drop (start + endDelimIndex)
      let afterSkip := bodyStart.dropWhile fun c => c == '\n' || c == '\r' || c == '-'
      .ok (fm, trimSpaceL afterSkip)

/-- `parser.ParseContent`: parse markdown content with YAML frontmatter.
`unm` is the external `yaml.Unmarshal` collaborator decoding the frontmatter
bytes into the metadata structure (absent keys decode to Go zero values:
empty string / `none`). -/
def ParseContent (unm : List Char → Except String Frontmatter)
    (content : List Char) (filename : String) (source : Source)
    (filepath : String) : Except String Document :=
  match extractFrontmatter content with
  | .error e => .error ("failed to extract frontmatter: " ++ e)
  | .ok (fm, body) =>
    match unm fm with
    | .error e => .error ("failed to parse YAML frontmatter: " ++ e)
    | .ok meta =>
      if meta.Description = "" then
        .error "missing required field: description"
      else
        let doc : Document :=
          { Name := meta.Name, Description := meta.Description,
            Required := true, Content := String.mk body,
            Source := source, FilePath := filepath }
        let doc :=
          if doc.Name = "" then
            { doc with Name := goTrimSuffix filename ".md" }
          else doc
        let doc :=
          match meta.Required with
          | some b => { doc with Required := b }
          | none => doc
        .ok doc

/-! ## Project configuration (`internal/config/config.go`) -/

/-- `config.ProjectConfig`: the `.howto/config.yaml` structure. -/
structure ProjectConfig where
  Require : List String
deriving DecidableEq

/-- `ProjectConfig.HasRequire`: whether a doc name is in the require list. -/
def ProjectConfig.HasRequire (c : ProjectConfig) (name : String) : Bool :=
  c.Require.any fun req => req == name

/-- What the filesystem holds at the project config path, as observed by
`config.LoadProjectConfig`.  `valid req` is a file that decodes
successfully, with `req = none` modelling a YAML document without a
`require` key (Go decodes it to a nil slice). -/
inductive ConfigFileState where
  | missing
  | statError (msg : String)
  | readError (msg : String)
  | invalidYaml (msg : String)
  | valid (req : Option (List String))
deriving DecidableEq

/-- `config.LoadProjectConfig`: load the project-scoped `config.yaml`;
a missing file is an empty config, a malformed one is a hard error, and a
nil `require` list is normalised to the empty list. -/
def LoadProjectConfig : ConfigFileState → Except String ProjectConfig
  | .missing => .ok ⟨[]⟩
  | .statError msg => .error ("failed to stat config file: " ++ msg)
  | .readError msg => .error ("failed to read config file: " ++ msg)
  | .invalidYaml msg => .error ("failed to parse config YAML: " ++ msg)
  | .valid req => .ok ⟨req.getD []⟩

/-! ## Registry (`internal/registry/registry.go`) -/

/-- `registry.Registry`: maps playbook names to their documentation.  The Go
`map[string]parser.Document` is modelled as an association list with unique
keys, maintained by the replacing insert `regInsert`; lookup, key set and
size then coincide with Go map semantics. -/
abbrev Registry := List (String × Document)

/-- Go map insertion `registry[k] = v`: replace the binding for `k` if one
exists, otherwise add one. -/
def regInsert : Registry → String → Document → Registry
  | [], k, v => [(k, v)]
  | kv :: rest, k, v =>
    if kv.1 = k then (k, v) :: rest else kv :: regInsert rest k v

/-- `Registry.Get`: retrieve a document by name (the Go `(doc, ok)` pair is
an `Option`). -/
def Registry.Get : Registry → String → Option Document
  | [], _ => none
  | kv :: rest, name => if kv.1 = name then some kv.2 else Registry.Get rest name

/-- `Registry.Has`: whether a document with the given name exists. -/
def Registry.Has (r : Registry) (name : String) : Bool :=
  (r.Get name).isSome

/-- `Registry.Count`: number of documents in the registry. -/
def Registry.Count (r : Registry) : Nat :=
  r.length

/-- The body of the first `BuildRegistry` loop: skip a global doc when
`required=false` and its name is not in the project config require list,
otherwise insert it. -/
def globalStep (projectConfig : ProjectConfig) (acc : Registry)
    (doc : Document) : Registry :=
  if !doc.Required && !projectConfig.HasRequire doc.Name then acc
  else regInsert acc doc.Name doc

/-- The body of the second `BuildRegistry` loop: project-scoped docs are
inserted unconditionally (overriding same-named global docs). -/
def projectStep (acc : Registry) (doc : Document) : Registry :=
  regInsert acc doc.Name doc

/-- `registry.BuildRegistry`: unified playbook registry with filtering. -/
def BuildRegistry (globalDocs projectDocs : List Document)
    (projectConfig : ProjectConfig) : Registry :=
  projectDocs.foldl projectStep
    (globalDocs.foldl (globalStep projectConfig) [])

/-- `path/filepath.Base` for the Unix separator `'/'`: last element of the
path after removing trailing separators; `"."` for the empty path, `"/"`
for an all-separator path. -/
def baseGo (path : String) : String :=
  if path = "" then "."
  else
    let cs := (path.data.reverse.dropWhile (· == '/')).reverse
    let last := (cs.reverse.takeWhile (· != '/')).reverse
    if last = [] then "/" else String.mk last

/-- Go's `<` on strings (byte-wise lexicographic; characters here are
ASCII, so code-point order equals byte order), on the underlying
character lists. -/
def ltCharList : List Char → List Char → Bool
  | [], [] => false
  | [], _ :: _ => true
  | _ :: _, [] => false
  | a :: as, b :: bs =>
    if a.toNat < b.toNat then true
    else if b.toNat < a.toNat then false
    else ltCharList as bs

/-- Go's `s1 < s2` on strings. -/
def strLt (a b : String) : Bool :=
  ltCharList a.data b.data

/-- The `sort.Slice` comparator in `Registry.List`, as a total `≤` on
`(name, sortKey)` entries: primarily by `sortKey`, ties broken by `name`
(`a ≤ b` iff not `b < a`). -/
def entryLe (a b : String × String) : Bool :=
  if a.2 = b.2 then !strLt b.1 a.1 else strLt a.2 b.2

/-- Insert into a `le`-sorted list, keeping it sorted. -/
def insertSorted (le : α → α → Bool) (x : α) : List α → List α
  | [] => [x]
  | y :: ys => if le x y then x :: y :: ys else y :: insertSorted le x ys

/-- Insertion sort.  `sort.Slice` in Go is an unstable sort, but the
comparator in `Registry.List` is a strict total order on the entries (names
are unique registry keys), so every sorting algorithm produces the same
result; insertion sort is used as the executable model. -/
def sortEntries (le : α → α → Bool) : List α → List α
  | [] => []
  | x :: xs => insertSorted le x (sortEntries le xs)

/-- `Registry.List`: all document names, sorted by sort key (basename of the
source file path, with a fallback to the name when the key is empty), ties
broken by name. -/
def Registry.List (r : Registry) : List String :=
  let entries := r.map fun kv =>
    let sortKey := baseGo kv.2.FilePath
    let sortKey := if sortKey = "" then kv.1 else sortKey
    (kv.1, sortKey)
  (sortEntries entryLe entries).map Prod.fst

/-- `Registry.GetAll`: all documents in `List` order. -/
def Registry.GetAll (r : Registry) :=
  (Registry.List r).filterMap (Registry.Get r)

/-! ## Document loader (`internal/loader/loader.go`) -/

/-- One entry visited by `filepath.WalkDir` inside a source directory.
`accessErr` is the non-nil `err` argument handed to the walk callback for an
entry that cannot be statted or walked; `infoErr` is a failure of
`d.Info()`; `parse` is the outcome of `parser.ParseFile` on the file (the
parser sets the document's `Source` field from the loader's argument, so the
stored document is taken to carry the right provenance).  `modTime` and
`size` are the stat data folded into the cache signature. -/
structure WalkEntry where
  path : String
  relPath : String
  name : String
  isDir : Bool
  accessErr : Option String
  infoErr : Option String
  modTime : Int
  size : Int
  parse : Except String Document

/-- What the filesystem holds at a directory path, as observed by `os.Stat`
and `filepath.WalkDir`: missing, stat failure, or present (with whether it
is a directory, and the entries a walk visits in order). -/
inductive DirState where
  | missing
  | statError (msg : String)
  | present (isDir : Bool) (entries : List WalkEntry)

/-- The body of the `filepath.WalkDir` callback in `loader.loadDocs`,
folded over the visited entries: an entry with a walk error is recorded in
`loadErrors` and skipped (the callback returns nil), directories and
non-`.md` files are skipped, parse failures are recorded and skipped, and
parsed documents are appended. -/
def loadDocsWalk (docs : List Document) : List WalkEntry → List Document
  | [] => docs
  | e :: es =>
    if e.accessErr.isSome then loadDocsWalk docs es
    else if e.isDir then loadDocsWalk docs es
    else if !trailsWith (toLowerGo e.name).data ".md".data then
      loadDocsWalk docs es
    else
      match e.parse with
      | .error _ => loadDocsWalk docs es
      | .ok doc => loadDocsWalk (docs ++ [doc]) es

/-- `loader.loadDocs`: load all markdown files from a directory.  A missing
directory yields an empty slice and no error; any other stat failure is an
error; otherwise the walk callback never returns a non-nil error, so the
walk succeeds and the collected documents are returned (recorded
`loadErrors` are discarded by the Go code). -/
def loadDocs : DirState → Except String (List Document)
  | .missing => .ok []
  | .statError msg => .error ("failed to stat directory: " ++ msg)
  | .present _ entries => .ok (loadDocsWalk [] entries)

/-! ## Cached registry loader (`internal/app/registry_loader.go`) -/

/-- The filesystem as seen by one `Load` call: the two source directory
paths and their states, and the project config file state. -/
structure FS where
  globalDir : String
  projectDir : String
  globalState : DirState
  projectState : DirState
  configFile : ConfigFileState

/-- `app.LoadRegistry`: build the registry from disk without caching. -/
def LoadRegistry (fs : FS) : Except String Registry :=
  match loadDocs fs.globalState with
  | .error e => .error ("failed to load global docs: " ++ e)
  | .ok globalDocs =>
    match loadDocs fs.projectState with
    | .error e => .error ("failed to load project docs: " ++ e)
    | .ok projectDocs =>
      match LoadProjectConfig fs.configFile with
      | .error e => .error ("failed to load project config: " ++ e)
      | .ok projectConfig =>
        .ok (BuildRegistry globalDocs projectDocs projectConfig)

/-- The walk inside `app.computeSignature` for one existing directory: a
walk error or `d.Info()` error aborts the signature computation (the
callback returns the error), directories contribute nothing, and every
regular file folds `relPath:modTime:size;` into the hash stream. -/
def walkSignature : List WalkEntry → Except String String
  | [] => .ok ""
  | e :: es =>
    if e.accessErr.isSome then .error (e.accessErr.getD "")
    else if e.isDir then walkSignature es
    else if e.infoErr.isSome then .error (e.infoErr.getD "")
    else
      match walkSignature es with
      | .error msg => .error msg
      | .ok rest =>
        .ok (e.relPath ++ ":" ++ toString e.modTime ++ ":"
              ++ toString e.size ++ ";" ++ rest)

/-- The per-directory part of `app.computeSignature`: an empty path is
skipped, a missing directory contributes the sentinel `dir:missing;`, any
other stat failure or a non-directory path is an error, and an existing
directory is walked. -/
def dirSignature (dir : String) (st : DirState) : Except String String :=
  if dir = "" then .ok ""
  else
    match st with
    | .missing => .ok (dir ++ ":missing;")
    | .statError msg => .error ("failed to stat directory: " ++ msg)
    | .present false _ => .error ("path " ++ dir ++ " is not a directory")
    | .present true entries =>
      match walkSignature entries with
      | .error msg => .error ("failed to walk directory: " ++ msg)
      | .ok s => .ok s

/-- `app.computeSignature`: the fingerprint over the source directories.
The `sha256`/hex step is abstracted by the byte stream fed to the hasher
(the Go code's change detection relies on the hash being injective on these
streams). -/
def computeSignature : List (String × DirState) → Except String String
  | [] => .ok ""
  | (dir, st) :: rest =>
    match dirSignature dir st with
    | .error e => .error e
    | .ok s =>
      match computeSignature rest with
      | .error e => .error e
      | .ok r => .ok (s ++ r)

/-- `app.CachedRegistryLoader`: cached registry plus source fingerprint.
The zero value (`cached = none`, `signature = ""`) is the cold state. -/
structure CachedRegistryLoader where
  cached : Option Registry
  signature : String

/-- `app.cloneRegistry` on a non-nil map: copy every entry into a fresh
map (`Load` only ever clones registries it knows to be non-nil). -/
def cloneRegistry (src : Registry) : Registry :=
  src.foldl (fun dest kv => regInsert dest kv.1 kv.2) []

/-- The miss path of `CachedRegistryLoader.Load`: rebuild via
`LoadRegistry`, store the new signature and registry on success, return a
defensive copy; on failure return the error with the state untouched. -/
def loadAndStore (c : CachedRegistryLoader) (fs : FS)
    (currentSignature : String) :
    Except String Registry × CachedRegistryLoader × Bool :=
  match LoadRegistry fs with
  | .error e => (.error e, c, true)
  | .ok reg => (.ok (cloneRegistry reg), ⟨some reg, currentSignature⟩, true)

/-- `app.CachedRegistryLoader.Load`: return the cached registry, reloading
from disk when the source signature changed.  The third component is
instrumentation recording whether this call invoked `LoadRegistry`
(document parsing / registry rebuilding); the Go code is the same with that
flag erased.  The mutex is not modelled: each call is one critical
section, so `Load` is a function from the pre-state and the filesystem to
the result and post-state. -/
def CachedRegistryLoader.Load (c : CachedRegistryLoader) (fs : FS) :
    Except String Registry × CachedRegistryLoader × Bool :=
  match computeSignature
      [(fs.globalDir, fs.globalState), (fs.projectDir, fs.projectState)] with
  | .error e => (.error e, c, false)
  | .ok currentSignature =>
    match c.cached with
    | some cachedReg =>
      if c.signature = currentSignature then
        (.ok (cloneRegistry cachedReg), c, false)
      else loadAndStore c fs currentSignature
    | none => loadAndStore c fs currentSignature

/-! ## Concrete fixtures and claim-side definitions -/

/-- A directory entry that cannot be statted or walked: the walk callback
receives a non-nil error for it, and the file was never parsed. -/
def inaccessibleEntry : WalkEntry :=
  ⟨"/lib/x.md", "x.md", "x.md", false, some "permission denied", none, 0, 0,
    Except.error "never parsed"⟩

/-- A filesystem where both library directories are absent and there is no
project config: the loader's simplest successful input. -/
def fsEmpty : FS :=
  ⟨"g", "p", DirState.missing, DirState.missing, ConfigFileState.missing⟩

/-- The cold loader state (the Go zero value). -/
def coldLoader : CachedRegistryLoader := ⟨none, ""⟩

/-- A filesystem whose global directory exists but cannot be statted. -/
def fsStatFailure : FS :=
  ⟨"g", "p", DirState.statError "boom", DirState.missing,
    ConfigFileState.missing⟩

/-- Modelled from the claim's words (C6, mirroring the spec's `List`
description): the listing the claim asserts, whose sort key is the source
file basename, or the document's name itself when the document has no known
path (empty `FilePath`). -/
def listClaimed (r : Registry) : List String :=
  (sortEntries entryLe (r.map fun kv =>
    (kv.1, if kv.2.FilePath = "" then kv.1 else baseGo kv.2.FilePath))).map
    Prod.fst

/-- A project document with no source path recorded. -/
def pathlessDoc : Document := ⟨"zzz", "Z", true, "", Source.projectScoped, ""⟩

/-- A project document with a source path. -/
def pathedDoc : Document :=
  ⟨"apple", "A", true, "", Source.projectScoped, "apple.md"⟩

/-- The listing `Registry.List` actually computes: the sort key is always
the basename of the document's `FilePath` (which is `"."` for an empty
path), ties broken by name. -/
def listByBasename (r : Registry) : List String :=
  (sortEntries entryLe (r.map fun kv => (kv.1, baseGo kv.2.FilePath))).map
    Prod.fst

/-- The external YAML decoder on the concrete frontmatter used by the C8
inputs: a metadata block with a `description` key and no `name` key decodes
to the zero-value name (Go decodes absent keys to `""`). -/
def unmDescOnly (fm : List Char) : Except String Frontmatter :=
  if fm = "description: Upper case doc".data then
    .ok ⟨"", "Upper case doc", none⟩
  else .error "unexpected frontmatter"

/-- The raw content of a document file with no `name` key. -/
def c8Content : List Char :=
  "---\ndescription: Upper case doc\n---\nBody".data

/-- Whether a body remainder `r` starts with a character the
`extractFrontmatter` skip loop would not consume (or is empty): under this
condition the skip loop stops exactly at `r`. -/
def bodyHeadOk : List Char → Bool
  | [] => true
  | c :: _ => !(c == '\n' || c == '\r' || c == '-')

/-- The external YAML decoder on the concrete frontmatter used by the C10
witness input. -/
def unmC10 (fm : List Char) : Except String Frontmatter :=
  if fm = "description: d".data then .ok ⟨"x", "d", none⟩
  else .error "unexpected frontmatter"

/-! ## Registry lemmas -/

theorem Get_regInsert (r : Registry) (k : String) (v : Document)
    (name : String) :
    Registry.Get (regInsert r k v) name
      = if name = k then some v else Registry.Get r name := by
  induction r with
  | nil =>
    simp only [regInsert, Registry.Get]
    by_cases h : name = k
    · simp [h]
    · simp [h, Ne.symm h]
  | cons kv rest ih =>
    simp only [regInsert]
    by_cases hk : kv.1 = k
    · simp only [hk, if_pos rfl, Registry.Get]
      by_cases h : name = k
      · simp [h]
      · simp [h, Ne.symm h, hk]
    · simp only [if_neg hk, Registry.Get]
      by_cases h : kv.1 = name
      · have : ¬ name = k := fun hnk => hk (h.trans hnk)
        simp [h, this]
      · simp [h, ih]

theorem globalStep_eq (cfg : ProjectConfig) (acc : Registry) (d : Document) :
    globalStep cfg acc d
      = if (d.Required || cfg.HasRequire d.Name) = true
          then regInsert acc d.Name d else acc := by
  unfold globalStep
  cases hd : d.Required <;> cases hc : cfg.HasRequire d.Name <;> simp [hd, hc]

/-- Folding the global filtering loop over docs that are all either named
differently from `name` or excluded by the filter leaves the binding of
`name` unchanged. -/
theorem Get_foldl_globalStep_skip (cfg : ProjectConfig)
    (docs : List Document) (name : String)
    (h : ∀ e ∈ docs, e.Name = name → (e.Required || cfg.HasRequire e.Name) = false) :
    ∀ acc : Registry,
      Registry.Get (docs.foldl (globalStep cfg) acc) name
        = Registry.Get acc name := by
  induction docs with
  | nil => intro acc; rfl
  | cons e es ih =>
    intro acc
    have hes : ∀ e' ∈ es, e'.Name = name
        → (e'.Required || cfg.HasRequire e'.Name) = false :=
      fun e' he' => h e' (List.mem_cons_of_mem _ he')
    rw [List.foldl_cons, ih hes, globalStep_eq]
    by_cases hinc : (e.Required || cfg.HasRequire e.Name) = true
    · rw [if_pos hinc, Get_regInsert]
      have hne : ¬ name = e.Name := by
        intro hn
        have := h e (List.mem_cons_self _ _) hn.symm
        rw [this] at hinc
        exact Bool.false_ne_true hinc
      rw [if_neg hne]
    · rw [if_neg hinc]

/-- Folding the global filtering loop preserves an existing binding's
presence. -/
theorem Has_foldl_globalStep_of_Has (cfg : ProjectConfig)
    (docs : List Document) (name : String) :
    ∀ acc : Registry, (Registry.Get acc name).isSome = true →
      (Registry.Get (docs.foldl (globalStep cfg) acc) name).isSome = true := by
  induction docs with
  | nil => intro acc h; exact h
  | cons e es ih =>
    intro acc h
    rw [List.foldl_cons]
    apply ih
    rw [globalStep_eq]
    by_cases hinc : (e.Required || cfg.HasRequire e.Name) = true
    · rw [if_pos hinc, Get_regInsert]
      by_cases hn : name = e.Name
      · simp [hn]
      · rwa [if_neg hn]
    · rwa [if_neg hinc]

/-- A global doc passing the inclusion filter leaves its name bound after
the first `BuildRegistry` loop. -/
theorem Has_foldl_globalStep_of_mem (cfg : ProjectConfig)
    (docs : List Document) (d : Document) (hmem : d ∈ docs)
    (hinc : (d.Required || cfg.HasRequire d.Name) = true) :
    ∀ acc : Registry,
      (Registry.Get (docs.foldl (globalStep cfg) acc) d.Name).isSome = true := by
  induction docs with
  | nil => cases hmem
  | cons e es ih =>
    intro acc
    rw [List.foldl_cons]
    rcases List.mem_cons.mp hmem with rfl | hmem'
    · apply Has_foldl_globalStep_of_Has
      rw [globalStep_eq, if_pos hinc, Get_regInsert, if_pos rfl]
      rfl
    · exact ih hmem' _

/-- Folding the project loop over docs named differently from `name` leaves
the binding of `name` unchanged. -/
theorem Get_foldl_projectStep_skip (docs : List Document) (name : String)
    (h : ∀ e ∈ docs, e.Name ≠ name) :
    ∀ acc : Registry,
      Registry.Get (docs.foldl projectStep acc) name
        = Registry.Get acc name := by
  induction docs with
  | nil => intro acc; rfl
  | cons e es ih =>
    intro acc
    have hes : ∀ e' ∈ es, e'.Name ≠ name :=
      fun e' he' => h e' (List.mem_cons_of_mem _ he')
    rw [List.foldl_cons, ih hes]
    unfold projectStep
    rw [Get_regInsert,
      if_neg (fun hn => h e (List.mem_cons_self _ _) hn.symm)]

/-- Folding the project loop preserves an existing binding's presence. -/
theorem Has_foldl_projectStep_of_Has (docs : List Document) (name : String) :
    ∀ acc : Registry, (Registry.Get acc name).isSome = true →
      (Registry.Get (docs.foldl projectStep acc) name).isSome = true := by
  induction docs with
  | nil => intro acc h; exact h
  | cons e es ih =>
    intro acc h
    rw [List.foldl_cons]
    apply ih
    unfold projectStep
    rw [Get_regInsert]
    by_cases hn : name = e.Name
    · simp [hn]
    · rwa [if_neg hn]

/-- Every project doc's name is bound after the second `BuildRegistry`
loop. -/
theorem Has_foldl_projectStep_of_mem (docs : List Document) (d : Document)
    (hmem : d ∈ docs) :
    ∀ acc : Registry,
      (Registry.Get (docs.foldl projectStep acc) d.Name).isSome = true := by
  induction docs with
  | nil => cases hmem
  | cons e es ih =>
    intro acc
    rw [List.foldl_cons]
    rcases List.mem_cons.mp hmem with rfl | hmem'
    · apply Has_foldl_projectStep_of_Has
      unfold projectStep
      rw [Get_regInsert, if_pos rfl]
      rfl
    · exact ih hmem' _

/-! ## Claims about `BuildRegistry` (C1, C2, C7) -/

/-- C1: a global document is included in the built registry iff its
`required` flag is true or its name is in the project configuration's
require set: required docs are always present regardless of the config,
non-required docs in the require list are present, and a non-required doc
whose name is not in the require list is absent provided no other
same-named entry (an includable global doc or a project doc) puts the name
back. -/
theorem C1_global_inclusion (g p : List Document) (cfg : ProjectConfig)
    (d : Document) (hd : d ∈ g) :
    (d.Required = true → Registry.Has (BuildRegistry g p cfg) d.Name = true)
    ∧ (d.Required = false → cfg.HasRequire d.Name = true →
        Registry.Has (BuildRegistry g p cfg) d.Name = true)
    ∧ (d.Required = false → cfg.HasRequire d.Name = false →
        (∀ e ∈ g, e.Name = d.Name → e.Required = false) →
        (∀ e ∈ p, e.Name ≠ d.Name) →
        Registry.Has (BuildRegistry g p cfg) d.Name = false) := by
  refine ⟨?_, ?_, ?_⟩
  · intro hreq
    unfold BuildRegistry Registry.Has
    apply Has_foldl_projectStep_of_Has
    exact Has_foldl_globalStep_of_mem cfg g d hd (by simp [hreq]) []
  · intro _ hreqset
    unfold BuildRegistry Registry.Has
    apply Has_foldl_projectStep_of_Has
    exact Has_foldl_globalStep_of_mem cfg g d hd (by simp [hreqset]) []
  · intro _ hreqset hall hproj
    unfold BuildRegistry Registry.Has
    rw [Get_foldl_projectStep_skip p d.Name hproj,
      Get_foldl_globalStep_skip cfg g d.Name ?_]
    · rfl
    · intro e he hename
      have hereq := hall e he hename
      rw [hereq, hename, hreqset]
      rfl

/-- C1 witness: a concrete instantiation of each part of
`C1_global_inclusion`. -/
theorem C1_global_inclusion_witness :
    Registry.Has
      (BuildRegistry
        [⟨"rust-lang", "Rust rules", true, "", Source.global, "rust-lang.md"⟩]
        [] ⟨[]⟩) "rust-lang" = true
    ∧ Registry.Has
        (BuildRegistry
          [⟨"important-rule", "Important", false, "", Source.global, "important-rule.md"⟩]
          [] ⟨["important-rule"]⟩) "important-rule" = true
    ∧ Registry.Has
        (BuildRegistry
          [⟨"optional-rule", "Optional", false, "", Source.global, "optional-rule.md"⟩]
          [] ⟨[]⟩) "optional-rule" = false :=
  ⟨(C1_global_inclusion
      [⟨"rust-lang", "Rust rules", true, "", Source.global, "rust-lang.md"⟩]
      [] ⟨[]⟩
      ⟨"rust-lang", "Rust rules", true, "", Source.global, "rust-lang.md"⟩
      (by simp)).1 rfl,
   (C1_global_inclusion
      [⟨"important-rule", "Important", false, "", Source.global, "important-rule.md"⟩]
      [] ⟨["important-rule"]⟩
      ⟨"important-rule", "Important", false, "", Source.global, "important-rule.md"⟩
      (by simp)).2.1 rfl (by decide),
   (C1_global_inclusion
      [⟨"optional-rule", "Optional", false, "", Source.global, "optional-rule.md"⟩]
      [] ⟨[]⟩
      ⟨"optional-rule", "Optional", false, "", Source.global, "optional-rule.md"⟩
      (by simp)).2.2 rfl (by decide) (by decide) (by decide)⟩

/-- C2: every project-scoped document's name is present in the built
registry, and `Get` on the name of the last same-named project document
returns that document in full (all fields), regardless of any global
document sharing the name — project overrides global wholesale, not
field-by-field. -/
theorem C2_project_override (g p : List Document) (cfg : ProjectConfig)
    (l1 l2 : List Document) (d : Document) (hp : p = l1 ++ d :: l2)
    (hlast : ∀ e ∈ l2, e.Name ≠ d.Name) :
    (∀ e ∈ p, Registry.Has (BuildRegistry g p cfg) e.Name = true)
    ∧ Registry.Get (BuildRegistry g p cfg) d.Name = some d := by
  constructor
  · intro e he
    unfold BuildRegistry Registry.Has
    exact Has_foldl_projectStep_of_mem p e he _
  · unfold BuildRegistry
    rw [hp, List.foldl_append, List.foldl_cons,
      Get_foldl_projectStep_skip l2 d.Name hlast]
    unfold projectStep
    rw [Get_regInsert, if_pos rfl]

/-- C2 witness: a project doc overrides a same-named global doc in full
(Scenario C of the spec). -/
theorem C2_project_override_witness :
    Registry.Get
      (BuildRegistry
        [⟨"commits", "Global commit rules", true, "Global text", Source.global, "g/commits.md"⟩]
        [⟨"commits", "Project commit rules", true, "Project text", Source.projectScoped, "p/commits.md"⟩]
        ⟨[]⟩) "commits"
      = some ⟨"commits", "Project commit rules", true, "Project text",
          Source.projectScoped, "p/commits.md"⟩ :=
  (C2_project_override
    [⟨"commits", "Global commit rules", true, "Global text", Source.global, "g/commits.md"⟩]
    [⟨"commits", "Project commit rules", true, "Project text", Source.projectScoped, "p/commits.md"⟩]
    ⟨[]⟩ [] []
    ⟨"commits", "Project commit rules", true, "Project text", Source.projectScoped, "p/commits.md"⟩
    rfl (by simp)).2

/-- C7: duplicate names are resolved by ordinary mapping insertion — the
last same-named occurrence wins.  Within `globalDocs`: if `d` is the last
doc of its name, passes the inclusion filter, and no project doc shares the
name, the registry maps the name to `d`.  Within `projectDocs`: if `d` is
the last project doc of its name, the registry maps the name to `d`. -/
theorem C7_last_one_wins (g p : List Document) (cfg : ProjectConfig) :
    (∀ (l1 l2 : List Document) (d : Document), g = l1 ++ d :: l2 →
      (∀ e ∈ l2, e.Name ≠ d.Name) →
      (d.Required || cfg.HasRequire d.Name) = true →
      (∀ e ∈ p, e.Name ≠ d.Name) →
      Registry.Get (BuildRegistry g p cfg) d.Name = some d)
    ∧ (∀ (l1 l2 : List Document) (d : Document), p = l1 ++ d :: l2 →
      (∀ e ∈ l2, e.Name ≠ d.Name) →
      Registry.Get (BuildRegistry g p cfg) d.Name = some d) := by
  constructor
  · intro l1 l2 d hg hlast hinc hproj
    unfold BuildRegistry
    rw [Get_foldl_projectStep_skip p d.Name hproj, hg, List.foldl_append,
      List.foldl_cons,
      Get_foldl_globalStep_skip cfg l2 d.Name
        (fun e he hename => absurd hename (hlast e he)),
      globalStep_eq, if_pos hinc, Get_regInsert, if_pos rfl]
  · intro l1 l2 d hp hlast
    unfold BuildRegistry
    rw [hp, List.foldl_append, List.foldl_cons,
      Get_foldl_projectStep_skip l2 d.Name hlast]
    unfold projectStep
    rw [Get_regInsert, if_pos rfl]

/-- C7 witness: with two same-named global docs the later one is returned,
and likewise for two same-named project docs. -/
theorem C7_last_one_wins_witness :
    Registry.Get
      (BuildRegistry
        [⟨"a", "first", true, "old", Source.global, "1.md"⟩,
         ⟨"a", "second", true, "new", Source.global, "2.md"⟩]
        [] ⟨[]⟩) "a"
      = some ⟨"a", "second", true, "new", Source.global, "2.md"⟩
    ∧ Registry.Get
        (BuildRegistry []
          [⟨"b", "first", true, "old", Source.projectScoped, "1.md"⟩,
           ⟨"b", "second", true, "new", Source.projectScoped, "2.md"⟩]
          ⟨[]⟩) "b"
      = some ⟨"b", "second", true, "new", Source.projectScoped, "2.md"⟩ :=
  ⟨(C7_last_one_wins
      [⟨"a", "first", true, "old", Source.global, "1.md"⟩,
       ⟨"a", "second", true, "new", Source.global, "2.md"⟩]
      [] ⟨[]⟩).1
      [⟨"a", "first", true, "old", Source.global, "1.md"⟩] []
      ⟨"a", "second", true, "new", Source.global, "2.md"⟩ rfl
      (by simp) (by decide) (by simp),
   (C7_last_one_wins []
      [⟨"b", "first", true, "old", Source.projectScoped, "1.md"⟩,
       ⟨"b", "second", true, "new", Source.projectScoped, "2.md"⟩]
      ⟨[]⟩).2
      [⟨"b", "first", true, "old", Source.projectScoped, "1.md"⟩] []
      ⟨"b", "second", true, "new", Source.projectScoped, "2.md"⟩ rfl
      (by simp)⟩

/-! ## Claims about the document loader (C9, C5) -/

/-- C9: loading from a directory that does not exist yields an empty
document sequence and no error (the `Except.ok` result excludes every
`Except.error`). -/
theorem C9_missing_directory_tolerated :
    loadDocs DirState.missing = Except.ok [] :=
  rfl

/-- C5 counterexample: the claim says an inaccessible entry inside an
existing source directory makes the Document Loader's `Load` abort with a
hard failure.  It does not: at this concrete input — an existing directory
whose single entry gets a permission-denied walk error — `loadDocs` returns
`Except.ok []` (which, by constructor disjointness, is not an
`Except.error`): the walk callback records the error and returns nil, so
the entry is skipped and the load succeeds. -/
theorem C5_counterexample :
    loadDocs (DirState.present true [inaccessibleEntry]) = Except.ok [] :=
  rfl

/-- C5 amended: an entry inside an existing directory that cannot be
statted or walked is recorded and skipped — loading continues as if the
entry were not there, and `loadDocs` on an existing directory always
succeeds (only a stat failure on the directory itself is a hard error). -/
theorem C5_amended_inaccessible_entry_skipped (b : Bool) (e : WalkEntry)
    (es : List WalkEntry) (h : e.accessErr.isSome = true) :
    loadDocs (DirState.present b (e :: es)) = loadDocs (DirState.present b es)
    ∧ ∃ docs, loadDocs (DirState.present b (e :: es)) = Except.ok docs := by
  refine ⟨?_, ⟨loadDocsWalk [] (e :: es), rfl⟩⟩
  simp only [loadDocs, loadDocsWalk, h, if_pos]

/-- C5 amended witness: the permission-denied entry is skipped and the load
succeeds. -/
theorem C5_amended_witness :
    loadDocs (DirState.present true [inaccessibleEntry])
      = loadDocs (DirState.present true [])
    ∧ ∃ docs, loadDocs (DirState.present true [inaccessibleEntry])
        = Except.ok docs :=
  C5_amended_inaccessible_entry_skipped true inaccessibleEntry [] rfl

/-! ## Claims about the cached registry loader (C3, C4) -/

/-- C3: if a `Load` call succeeds and the filesystem is unchanged at the
next call (same observed `FS`, hence the computed signature equals the
stored one), the second call returns a registry identical to the first
call's result and performs no parsing or rebuilding (the instrumentation
flag is `false`: only the fingerprint comparison and a copy of the stored
snapshot happen), leaving the state unchanged. -/
theorem C3_cached_load_idempotent (c : CachedRegistryLoader) (fs : FS)
    (r : Registry) (st : CachedRegistryLoader) (b : Bool)
    (h : CachedRegistryLoader.Load c fs = (Except.ok r, st, b)) :
    CachedRegistryLoader.Load st fs = (Except.ok r, st, false) := by
  cases hsig : computeSignature
      [(fs.globalDir, fs.globalState), (fs.projectDir, fs.projectState)] with
  | error e =>
    simp only [CachedRegistryLoader.Load, hsig] at h
    simp at h
  | ok s =>
    cases hc : c.cached with
    | some cachedReg =>
      by_cases hs : c.signature = s
      · simp only [CachedRegistryLoader.Load, hsig, hc, if_pos hs,
          Prod.mk.injEq, Except.ok.injEq] at h
        obtain ⟨h1, h2, -⟩ := h
        subst h2
        simp only [CachedRegistryLoader.Load, hsig, hc, if_pos hs, h1]
      · cases hlr : LoadRegistry fs with
        | error e =>
          simp only [CachedRegistryLoader.Load, loadAndStore, hsig, hc,
            if_neg hs, hlr] at h
          simp at h
        | ok reg =>
          simp only [CachedRegistryLoader.Load, loadAndStore, hsig, hc,
            if_neg hs, hlr, Prod.mk.injEq, Except.ok.injEq] at h
          obtain ⟨h1, h2, -⟩ := h
          subst h2
          simp [CachedRegistryLoader.Load, hsig, h1]
    | none =>
      cases hlr : LoadRegistry fs with
      | error e =>
        simp only [CachedRegistryLoader.Load, loadAndStore, hsig, hc,
          hlr] at h
        simp at h
      | ok reg =>
        simp only [CachedRegistryLoader.Load, loadAndStore, hsig, hc, hlr,
          Prod.mk.injEq, Except.ok.injEq] at h
        obtain ⟨h1, h2, -⟩ := h
        subst h2
        simp [CachedRegistryLoader.Load, hsig, h1]

/-- C3 witness: after a first successful (cold, rebuilding) call on
`fsEmpty`, the second call is a pure cache hit. -/
theorem C3_cached_load_idempotent_witness :
    CachedRegistryLoader.Load ⟨some [], "g:missing;p:missing;"⟩ fsEmpty
      = (Except.ok [], ⟨some [], "g:missing;p:missing;"⟩, false) :=
  C3_cached_load_idempotent coldLoader fsEmpty []
    ⟨some [], "g:missing;p:missing;"⟩ true rfl

/-- C4: a failing `Load` call (signature computation error or rebuild
error) leaves the stored signature and cached snapshot exactly as they were
before the call. -/
theorem C4_error_preserves_state (c : CachedRegistryLoader) (fs : FS)
    (e : String) (h : (CachedRegistryLoader.Load c fs).1 = Except.error e) :
    (CachedRegistryLoader.Load c fs).2.1 = c := by
  cases hsig : computeSignature
      [(fs.globalDir, fs.globalState), (fs.projectDir, fs.projectState)] with
  | error msg => simp only [CachedRegistryLoader.Load, hsig]
  | ok s =>
    cases hc : c.cached with
    | some cachedReg =>
      by_cases hs : c.signature = s
      · simp only [CachedRegistryLoader.Load, hsig, hc, if_pos hs] at h
        exact absurd h (by simp)
      · cases hlr : LoadRegistry fs with
        | error msg =>
          simp only [CachedRegistryLoader.Load, loadAndStore, hsig, hc,
            if_neg hs, hlr]
        | ok reg =>
          simp only [CachedRegistryLoader.Load, loadAndStore, hsig, hc,
            if_neg hs, hlr] at h
          exact absurd h (by simp)
    | none =>
      cases hlr : LoadRegistry fs with
      | error msg =>
        simp only [CachedRegistryLoader.Load, loadAndStore, hsig, hc, hlr]
      | ok reg =>
        simp only [CachedRegistryLoader.Load, loadAndStore, hsig, hc,
          hlr] at h
        exact absurd h (by simp)

/-- C4 witness: a stat failure aborts `Load` and leaves the cold state
untouched. -/
theorem C4_error_preserves_state_witness :
    (CachedRegistryLoader.Load coldLoader fsStatFailure).2.1 = coldLoader :=
  C4_error_preserves_state coldLoader fsStatFailure
    "failed to stat directory: boom" rfl

/-! ## Claim about `Registry.List` ordering (C6) -/

/-- C6 counterexample: the claim says a document with an empty `FilePath`
is ordered as if its sort key were its name.  It is not: `filepath.Base`
of an empty path is `"."`, never the empty string, so the `sortKey == ""`
fallback to the name never fires.  At this concrete registry the code
orders `"zzz"` (key `"."`) before `"apple"` (key `"apple.md"`), while the
claimed ordering (key `"zzz"`) would put `"apple"` first. -/
theorem C6_counterexample :
    Registry.List (BuildRegistry [] [pathlessDoc, pathedDoc] ⟨[]⟩)
      = ["zzz", "apple"]
    ∧ listClaimed (BuildRegistry [] [pathlessDoc, pathedDoc] ⟨[]⟩)
      = ["apple", "zzz"]
    ∧ Registry.List (BuildRegistry [] [pathlessDoc, pathedDoc] ⟨[]⟩)
      ≠ listClaimed (BuildRegistry [] [pathlessDoc, pathedDoc] ⟨[]⟩) := by
  refine ⟨rfl, rfl, ?_⟩
  decide

theorem baseGo_ne_empty (path : String) : baseGo path ≠ "" := by
  simp only [baseGo]
  split_ifs with h1 h2
  · simp
  · simp
  · intro hcontra
    apply h2
    have := congrArg String.data hcontra
    simpa using this

/-- C6 amended: `List` sorts primarily by the basename of each document's
source file path (ties broken secondarily by name), where the basename of
an empty path is `"."`; the fallback of the key to the document's name is
dead code because `filepath.Base` never returns an empty string, so a
document with an empty `FilePath` is ordered under the key `"."`, not
under its name. -/
theorem C6_amended_sort_key (r : Registry) :
    Registry.List r = listByBasename r := by
  unfold Registry.List listByBasename
  have hmap : (r.map fun kv =>
      (kv.1,
        if baseGo kv.2.FilePath = "" then kv.1 else baseGo kv.2.FilePath))
      = r.map fun kv => (kv.1, baseGo kv.2.FilePath) :=
    List.map_congr_left fun kv _ => by
      rw [if_neg (baseGo_ne_empty kv.2.FilePath)]
  rw [hmap]

/-! ## Claim about the default document name (C8) -/

/-- C8 counterexample: the claim says every eligible file (`.md`
case-insensitively, so `.MD` files are parsed) without a `name` key gets
the filename stem as its default name.  For the eligible file `upper.MD`
the code's `strings.TrimSuffix(filename, ".md")` is case-sensitive and
strips nothing: the parsed document's name is `"upper.MD"`, not the stem
`"upper"`. -/
theorem C8_counterexample :
    trailsWith (toLowerGo "upper.MD").data ".md".data = true
    ∧ (ParseContent unmDescOnly c8Content "upper.MD" Source.global
        "/g/upper.MD").toOption.map Document.Name = some "upper.MD"
    ∧ ("upper.MD" : String) ≠ "upper" :=
  ⟨rfl, rfl, by decide⟩

/-- C8 amended: when the metadata block has no `name` key, the parsed
document's name defaults to the filename with one case-sensitive `".md"`
suffix removed: for a filename ending in the exact bytes `".md"` this is
the stem, while for any other filename (including the eligible `.MD` and
`.Md` spellings) it is the full filename, extension included. -/
theorem C8_amended_default_name
    (unm : List Char → Except String Frontmatter) (content : List Char)
    (filename : String) (src : Source) (fpath : String)
    (fm body : List Char) (meta : Frontmatter) (doc : Document)
    (hex : extractFrontmatter content = .ok (fm, body))
    (hunm : unm fm = .ok meta) (hname : meta.Name = "")
    (hok : ParseContent unm content filename src fpath = .ok doc) :
    doc.Name = goTrimSuffix filename ".md"
    ∧ (trailsWith filename.data ".md".data = true
        → doc.Name
          = String.mk (filename.data.take (filename.data.length - 3)))
    ∧ (trailsWith filename.data ".md".data = false
        → doc.Name = filename) := by
  have hmain : doc.Name = goTrimSuffix filename ".md" := by
    unfold ParseContent at hok
    simp only [hex, hunm] at hok
    rw [if_neg ?hdesc] at hok
    case hdesc =>
      intro hdesc
      rw [if_pos hdesc] at hok
      cases hok
    · injection hok with hok
      subst hok
      cases meta.Required with
      | some b => simp [hname]
      | none => simp [hname]
  refine ⟨hmain, ?_, ?_⟩
  · intro hsfx
    rw [hmain]
    unfold goTrimSuffix
    rw [if_pos hsfx]
    rfl
  · intro hsfx
    rw [hmain]
    unfold goTrimSuffix
    rw [hsfx]
    simp

/-- C8 amended witness: for the lowercase filename `my-doc.md` the default
name is the stem `my-doc`. -/
theorem C8_amended_default_name_witness :
    (⟨"my-doc", "Upper case doc", true, "Body", Source.projectScoped,
        "p/my-doc.md"⟩ : Document).Name = goTrimSuffix "my-doc.md" ".md"
    ∧ (trailsWith "my-doc.md".data ".md".data = true
        → (⟨"my-doc", "Upper case doc", true, "Body", Source.projectScoped,
            "p/my-doc.md"⟩ : Document).Name
          = String.mk ("my-doc.md".data.take ("my-doc.md".data.length - 3)))
    ∧ (trailsWith "my-doc.md".data ".md".data = false
        → (⟨"my-doc", "Upper case doc", true, "Body", Source.projectScoped,
            "p/my-doc.md"⟩ : Document).Name = "my-doc.md") :=
  C8_amended_default_name unmDescOnly c8Content "my-doc.md"
    Source.projectScoped "p/my-doc.md"
    "description: Upper case doc".data "Body".data
    ⟨"", "Upper case doc", none⟩
    ⟨"my-doc", "Upper case doc", true, "Body", Source.projectScoped,
      "p/my-doc.md"⟩
    rfl rfl rfl rfl

/-! ## Claim about leading-hyphen stripping in the parsed body (C10) -/

theorem leadsWith_nil (s : List Char) : leadsWith s [] = true := by
  cases s <;> rfl

/-- Evaluation of `extractFrontmatter` on a well-formed LF document whose
first `\n---\n` delimiter sits right after the frontmatter: the body is the
remainder with the skip-loop characters removed, then trimmed. -/
theorem extract_lf_delimited (Y fm rest : List Char) (hY : Y = fm ++ rest)
    (h1 : indexOfSub Y ['\n', '-', '-', '-', '\n'] = some fm.length) :
    extractFrontmatter ('-' :: '-' :: '-' :: '\n' :: Y)
      = Except.ok (fm,
          trimSpaceL (rest.dropWhile
            fun c => c == '\n' || c == '\r' || c == '-')) := by
  have hne : (('\n' : Char) == '\r') = false := rfl
  have hlf : leadsWith ('-' :: '-' :: '-' :: '\n' :: Y)
      ['-', '-', '-', '\n'] = true := by
    simp [leadsWith, leadsWith_nil]
  have hcrlf : leadsWith ('-' :: '-' :: '-' :: '\n' :: Y)
      ['-', '-', '-', '\r', '\n'] = false := by
    simp [leadsWith, hne]
  have hdrop : ('-' :: '-' :: '-' :: '\n' :: Y).drop 4 = Y := rfl
  simp only [extractFrontmatter, hlf, hcrlf, Bool.not_true, Bool.not_false,
    Bool.false_and, Bool.and_false, if_false, Bool.false_eq_true, hdrop, h1]
  rw [← List.drop_drop, hdrop, hY, List.take_left, List.drop_left]

theorem dropWhile_replicate_hyphen_append
    (p : Char → Bool) (hp : p '-' = true) (n : Nat) (r : List Char) :
    (List.replicate n '-' ++ r).dropWhile p = r.dropWhile p := by
  induction n with
  | zero => simp
  | succ m ih => simp [List.replicate_succ, List.dropWhile_cons, hp, ih]

/-- The skip loop consumes the closing delimiter's characters and every
further hyphen, and stops at a `bodyHeadOk` remainder. -/
theorem dropWhile_skip_eval (k : Nat) (r : List Char)
    (h2 : bodyHeadOk r = true) :
    (('\n' :: '-' :: '-' :: '-' :: '\n' :: (List.replicate (k+1) '-' ++ r))
        |>.dropWhile fun c => c == '\n' || c == '\r' || c == '-') = r := by
  have hpn : ((('\n' : Char) == '\n' || ('\n' : Char) == '\r'
      || ('\n' : Char) == '-')) = true := rfl
  have hpd : ((('-' : Char) == '\n' || ('-' : Char) == '\r'
      || ('-' : Char) == '-')) = true := rfl
  simp only [List.dropWhile_cons, hpn, hpd, if_true]
  rw [dropWhile_replicate_hyphen_append _ hpd]
  cases r with
  | nil => rfl
  | cons c cs =>
    have hc : (c == '\n' || c == '\r' || c == '-') = false := by
      revert h2
      simp [bodyHeadOk]
    simp [List.dropWhile_cons, hc]

theorem trimSpaceL_length_le (r : List Char) :
    (trimSpaceL r).length ≤ r.length := by
  unfold trimSpaceL
  calc ((r.dropWhile isSpaceGo).reverse.dropWhile isSpaceGo).reverse.length
      = ((r.dropWhile isSpaceGo).reverse.dropWhile isSpaceGo).length :=
        List.length_reverse _
    _ ≤ (r.dropWhile isSpaceGo).reverse.length :=
        (List.dropWhile_sublist _).length_le
    _ = (r.dropWhile isSpaceGo).length := List.length_reverse _
    _ ≤ r.length := (List.dropWhile_sublist _).length_le

/-- C10: for a well-formed LF document whose body text immediately after
the closing `---` delimiter line starts with one or more `-` characters,
`ParseContent` strips those leading hyphens (together with the surrounding
whitespace trim): the returned `Content` is the trimmed remainder after the
hyphens, and is never the verbatim text following the closing delimiter. -/
theorem C10_leading_hyphens_stripped
    (unm : List Char → Except String Frontmatter) (fm r : List Char)
    (k : Nat) (meta : Frontmatter) (filename fpath : String) (src : Source)
    (h1 : indexOfSub
        (fm ++ '\n' :: '-' :: '-' :: '-' :: '\n'
          :: (List.replicate (k+1) '-' ++ r))
        ['\n', '-', '-', '-', '\n'] = some fm.length)
    (h2 : bodyHeadOk r = true) (h3 : unm fm = .ok meta)
    (h4 : meta.Description ≠ "") :
    ∃ doc,
      ParseContent unm
          ('-' :: '-' :: '-' :: '\n'
            :: (fm ++ '\n' :: '-' :: '-' :: '-' :: '\n'
              :: (List.replicate (k+1) '-' ++ r)))
          filename src fpath
        = Except.ok doc
      ∧ doc.Content = String.mk (trimSpaceL r)
      ∧ doc.Content ≠ String.mk (List.replicate (k+1) '-' ++ r) := by
  have hex := extract_lf_delimited
    (fm ++ '\n' :: '-' :: '-' :: '-' :: '\n'
      :: (List.replicate (k+1) '-' ++ r))
    fm ('\n' :: '-' :: '-' :: '-' :: '\n' :: (List.replicate (k+1) '-' ++ r))
    rfl h1
  rw [dropWhile_skip_eval k r h2] at hex
  have hcontent : ∀ doc,
      ParseContent unm
          ('-' :: '-' :: '-' :: '\n'
            :: (fm ++ '\n' :: '-' :: '-' :: '-' :: '\n'
              :: (List.replicate (k+1) '-' ++ r)))
          filename src fpath
        = Except.ok doc → doc.Content = String.mk (trimSpaceL r) := by
    intro doc hok
    unfold ParseContent at hok
    simp only [hex, h3] at hok
    rw [if_neg h4] at hok
    injection hok with hok
    subst hok
    cases meta.Required with
    | some b =>
      by_cases hn : meta.Name = "" <;> simp [hn]
    | none =>
      by_cases hn : meta.Name = "" <;> simp [hn]
  have hne : String.mk (trimSpaceL r)
      ≠ String.mk (List.replicate (k+1) '-' ++ r) := by
    intro heq
    have hdata := congrArg String.data heq
    simp only at hdata
    have hlenle := trimSpaceL_length_le r
    have hlen := congrArg List.length hdata
    simp [List.length_append, List.length_replicate] at hlen
    omega
  unfold ParseContent
  simp only [hex, h3]
  rw [if_neg h4]
  refine ⟨_, rfl, ?_, ?_⟩
  · exact hcontent _ (by
      unfold ParseContent
      simp only [hex, h3]
      rw [if_neg h4])
  · rw [hcontent _ (by
      unfold ParseContent
      simp only [hex, h3]
      rw [if_neg h4])]
    exact hne

/-- C10 witness: a document whose body is `-item` after the closing
delimiter parses to content `item`. -/
theorem C10_leading_hyphens_stripped_witness :
    ∃ doc,
      ParseContent unmC10
          ('-' :: '-' :: '-' :: '\n'
            :: ("description: d".data ++ '\n' :: '-' :: '-' :: '-' :: '\n'
              :: (List.replicate 1 '-' ++ "item".data)))
          "t.md" Source.global "t.md"
        = Except.ok doc
      ∧ doc.Content = String.mk (trimSpaceL "item".data)
      ∧ doc.Content ≠ String.mk (List.replicate 1 '-' ++ "item".data) :=
  C10_leading_hyphens_stripped unmC10 "description: d".data "item".data 0
    ⟨"x", "d", none⟩ "t.md" "t.md" Source.global (by decide) rfl rfl
    (by decide)

end Howto
